import Mathlib

/-!
Verification of the Gromox IMAP command parser (src/mra/imap/imap_cmd_parser.cpp)
against its natural-language specification.

Folder names, FETCH keywords and message ids are modelled as lists of
characters (the C code works on NUL-terminated char buffers).  External
collaborators that are not part of the source tree (the MUTF-7 codec, the
hex codec, the MIDB client, the localisation table) are modelled from the
specification and marked as such in their doc comments.
-/

/-- ASCII lower-casing of one character, as done by HX_tolower / strcasecmp. -/
def asciiLower (c : Char) : Char :=
  if 'A' ≤ c ∧ c ≤ 'Z' then Char.ofNat (c.toNat + 32) else c

/-- Case-insensitive string equality on char lists (strcasecmp == 0). -/
def ciEqL (a b : List Char) : Bool :=
  a.map asciiLower == b.map asciiLower

/-- Case-insensitive prefix test on char lists (strncasecmp(a, p, |p|) == 0). -/
def ciPrefixL (p s : List Char) : Bool :=
  (s.take p.length).map asciiLower == p.map asciiLower

/-- Case-insensitive substring search, as the gromox helper search_string
(collaborator, not under src/); returns whether the needle occurs. -/
def containsCI (needle : List Char) : List Char → Bool
  | [] => ciPrefixL needle []
  | c :: rest => ciPrefixL needle (c :: rest) || containsCI needle rest

/-- Hex digit for a nibble, lower case, as produced by encode_hex_binary. -/
def hexNibble (n : Nat) : Char :=
  if n < 10 then Char.ofNat (48 + n) else Char.ofNat (87 + n)

/-- Modelled from the spec: encode_hex_binary (collaborator, not under src/)
produces the lowercase-hex encoding of a byte string. -/
def encode_hex_binary (bs : List Nat) : List Char :=
  bs.flatMap (fun b => [hexNibble (b / 16), hexNibble (b % 16)])

/-- Value of one hex digit, or none for a non-hex character. -/
def hexVal (c : Char) : Option Nat :=
  if '0' ≤ c ∧ c ≤ '9' then some (c.toNat - 48)
  else if 'a' ≤ c ∧ c ≤ 'f' then some (c.toNat - 87)
  else none

/-- Modelled from the spec: decode_hex_binary (collaborator, not under src/)
decodes a lowercase-hex string back into bytes. -/
def decode_hex_binary : List Char → Option (List Nat)
  | [] => some []
  | [_] => none
  | c1 :: c2 :: rest =>
    match hexVal c1, hexVal c2, decode_hex_binary rest with
    | some h, some l, some bs => some ((16 * h + l) :: bs)
    | _, _, _ => none

/-- UTF-8 encoding of a single code point as a byte list. -/
def utf8EncodeCharNat (c : Char) : List Nat :=
  if c.toNat < 0x80 then [c.toNat]
  else if c.toNat < 0x800 then
    [0xC0 + c.toNat / 64, 0x80 + c.toNat % 64]
  else if c.toNat < 0x10000 then
    [0xE0 + c.toNat / 4096, 0x80 + c.toNat / 64 % 64, 0x80 + c.toNat % 64]
  else
    [0xF0 + c.toNat / 0x40000, 0x80 + c.toNat / 4096 % 64,
     0x80 + c.toNat / 64 % 64, 0x80 + c.toNat % 64]

/-- UTF-8 encoding of a character list. -/
def utf8Bytes (l : List Char) : List Nat :=
  l.flatMap utf8EncodeCharNat

/-- UTF-8 decoding of one leading character; none on malformed input. -/
def utf8DecodeStep : List Nat → Option (Char × List Nat)
  | [] => none
  | b :: rest =>
    if b < 0x80 then some (Char.ofNat b, rest)
    else if b < 0xC0 then none
    else if b < 0xE0 then
      match rest with
      | b2 :: rs =>
        if 0x80 ≤ b2 ∧ b2 < 0xC0 then
          some (Char.ofNat ((b - 0xC0) * 64 + (b2 - 0x80)), rs)
        else none
      | [] => none
    else if b < 0xF0 then
      match rest with
      | b2 :: b3 :: rs =>
        if (0x80 ≤ b2 ∧ b2 < 0xC0) ∧ (0x80 ≤ b3 ∧ b3 < 0xC0) then
          some (Char.ofNat ((b - 0xE0) * 4096 + (b2 - 0x80) * 64 + (b3 - 0x80)), rs)
        else none
      | _ => none
    else
      match rest with
      | b2 :: b3 :: b4 :: rs =>
        if (0x80 ≤ b2 ∧ b2 < 0xC0) ∧ (0x80 ≤ b3 ∧ b3 < 0xC0) ∧ (0x80 ≤ b4 ∧ b4 < 0xC0) then
          some (Char.ofNat ((b - 0xF0) * 0x40000 + (b2 - 0x80) * 4096 +
            (b3 - 0x80) * 64 + (b4 - 0x80)), rs)
        else none
      | _ => none

theorem utf8DecodeStep_length : ∀ {l : List Nat} {c : Char} {r : List Nat},
    utf8DecodeStep l = some (c, r) → r.length < l.length := by
  intro l c r h
  match l with
  | [] => simp [utf8DecodeStep] at h
  | b :: rest =>
    simp only [utf8DecodeStep] at h
    split at h
    · simp only [Option.some.injEq, Prod.mk.injEq] at h
      simp [← h.2]
    · split at h
      · exact absurd h (by simp)
      · split at h
        · match rest with
          | [] => simp at h
          | b2 :: rs =>
            simp only at h
            split at h
            · simp only [Option.some.injEq, Prod.mk.injEq] at h
              simp [← h.2]
              omega
            · simp at h
        · split at h
          · match rest with
            | [] => simp at h
            | [b2] => simp at h
            | b2 :: b3 :: rs =>
              simp only at h
              split at h
              · simp only [Option.some.injEq, Prod.mk.injEq] at h
                simp [← h.2]
                omega
              · simp at h
          · match rest with
            | [] => simp at h
            | [b2] => simp at h
            | [b2, b3] => simp at h
            | b2 :: b3 :: b4 :: rs =>
              simp only at h
              split at h
              · simp only [Option.some.injEq, Prod.mk.injEq] at h
                simp [← h.2]
                omega
              · simp at h

/-- UTF-8 decoding of a byte list; none on malformed input. -/
def utf8Decode (l : List Nat) : Option (List Char) :=
  match h : utf8DecodeStep l with
  | none => if l.isEmpty then some [] else none
  | some (c, rest) =>
    have : rest.length < l.length := utf8DecodeStep_length h
    (utf8Decode rest).map (c :: ·)
termination_by l.length

theorem utf8Decode_of_step_some {l : List Nat} {c : Char} {rest : List Nat}
    (h : utf8DecodeStep l = some (c, rest)) :
    utf8Decode l = (utf8Decode rest).map (c :: ·) := by
  rw [utf8Decode]
  split
  · rename_i heq
    rw [h] at heq
    exact absurd heq (by simp)
  · rename_i c' rest' heq
    rw [h] at heq
    simp only [Option.some.injEq, Prod.mk.injEq] at heq
    rw [heq.1, heq.2]

theorem hexVal_hexNibble : ∀ n, n < 16 → hexVal (hexNibble n) = some n := by
  decide

theorem char_toNat_lt (c : Char) : c.toNat < 1114112 := by
  have h := c.valid
  unfold UInt32.isValidChar Nat.isValidChar at h
  rcases h with h | ⟨h1, h2⟩
  · have h3 : c.val.toNat < (55296 : UInt32).toNat := h
    have he : c.toNat = c.val.toNat := rfl
    omega
  · have h3 : c.val.toNat < (1114112 : UInt32).toNat := h2
    have he : c.toNat = c.val.toNat := rfl
    omega

theorem utf8EncodeCharNat_lt (c : Char) : ∀ b ∈ utf8EncodeCharNat c, b < 256 := by
  have hv : c.toNat < 1114112 := char_toNat_lt c
  unfold utf8EncodeCharNat
  intro b hb
  split at hb
  · simp only [List.mem_cons, List.not_mem_nil, or_false] at hb; omega
  · split at hb
    · simp only [List.mem_cons, List.not_mem_nil, or_false] at hb; rcases hb with h | h <;> omega
    · split at hb <;>
        (simp only [List.mem_cons, List.not_mem_nil, or_false] at hb;
         rcases hb with h | h | h <;> try rcases h with h | h) <;> omega

theorem decode_encode_hex :
    ∀ bs : List Nat, (∀ b ∈ bs, b < 256) → decode_hex_binary (encode_hex_binary bs) = some bs := by
  intro bs
  induction bs with
  | nil => intro; rfl
  | cons b rest ih =>
    intro h
    have hb : b < 256 := h b (List.mem_cons_self ..)
    have h16 : b / 16 < 16 := by omega
    have hm : b % 16 < 16 := Nat.mod_lt _ (by omega)
    have hrest : decode_hex_binary (encode_hex_binary rest) = some rest :=
      ih (fun x hx => h x (List.mem_cons_of_mem _ hx))
    simp only [encode_hex_binary, List.flatMap_cons] at *
    have hbb : 16 * (b / 16) + b % 16 = b := by omega
    simp [decode_hex_binary, hexVal_hexNibble _ h16, hexVal_hexNibble _ hm, hrest, hbb]

theorem utf8DecodeStep_encodeChar (c : Char) (bs : List Nat) :
    utf8DecodeStep (utf8EncodeCharNat c ++ bs) = some (c, bs) := by
  have hv := char_toNat_lt c
  have hm64 : c.toNat % 64 < 64 := Nat.mod_lt _ (by omega)
  have hm64b : c.toNat / 64 % 64 < 64 := Nat.mod_lt _ (by omega)
  have hm64c : c.toNat / 4096 % 64 < 64 := Nat.mod_lt _ (by omega)
  unfold utf8EncodeCharNat
  by_cases h1 : c.toNat < 0x80
  · rw [if_pos h1]
    simp only [List.cons_append, List.nil_append, utf8DecodeStep, if_pos h1,
      Char.ofNat_toNat]
  · by_cases h2 : c.toNat < 0x800
    · rw [if_neg h1, if_pos h2]
      simp only [List.cons_append, List.nil_append, utf8DecodeStep,
        if_neg (by omega : ¬ (0xC0 + c.toNat / 64 < 0x80)),
        if_neg (by omega : ¬ (0xC0 + c.toNat / 64 < 0xC0)),
        if_pos (by omega : 0xC0 + c.toNat / 64 < 0xE0),
        if_pos (by omega : 0x80 ≤ 0x80 + c.toNat % 64 ∧ 0x80 + c.toNat % 64 < 0xC0)]
      have hval : (0xC0 + c.toNat / 64 - 0xC0) * 64 + (0x80 + c.toNat % 64 - 0x80)
          = c.toNat := by omega
      rw [hval, Char.ofNat_toNat]
    · by_cases h3 : c.toNat < 0x10000
      · rw [if_neg h1, if_neg h2, if_pos h3]
        simp only [List.cons_append, List.nil_append, utf8DecodeStep,
          if_neg (by omega : ¬ (0xE0 + c.toNat / 4096 < 0x80)),
          if_neg (by omega : ¬ (0xE0 + c.toNat / 4096 < 0xC0)),
          if_neg (by omega : ¬ (0xE0 + c.toNat / 4096 < 0xE0)),
          if_pos (by omega : 0xE0 + c.toNat / 4096 < 0xF0),
          if_pos (by omega :
            (0x80 ≤ 0x80 + c.toNat / 64 % 64 ∧ 0x80 + c.toNat / 64 % 64 < 0xC0) ∧
            (0x80 ≤ 0x80 + c.toNat % 64 ∧ 0x80 + c.toNat % 64 < 0xC0))]
        have hval : (0xE0 + c.toNat / 4096 - 0xE0) * 4096 +
            (0x80 + c.toNat / 64 % 64 - 0x80) * 64 + (0x80 + c.toNat % 64 - 0x80)
            = c.toNat := by omega
        rw [hval, Char.ofNat_toNat]
      · rw [if_neg h1, if_neg h2, if_neg h3]
        simp only [List.cons_append, List.nil_append, utf8DecodeStep,
          if_neg (by omega : ¬ (0xF0 + c.toNat / 0x40000 < 0x80)),
          if_neg (by omega : ¬ (0xF0 + c.toNat / 0x40000 < 0xC0)),
          if_neg (by omega : ¬ (0xF0 + c.toNat / 0x40000 < 0xE0)),
          if_neg (by omega : ¬ (0xF0 + c.toNat / 0x40000 < 0xF0)),
          if_pos (by omega :
            (0x80 ≤ 0x80 + c.toNat / 4096 % 64 ∧ 0x80 + c.toNat / 4096 % 64 < 0xC0) ∧
            (0x80 ≤ 0x80 + c.toNat / 64 % 64 ∧ 0x80 + c.toNat / 64 % 64 < 0xC0) ∧
            (0x80 ≤ 0x80 + c.toNat % 64 ∧ 0x80 + c.toNat % 64 < 0xC0))]
        have hval : (0xF0 + c.toNat / 0x40000 - 0xF0) * 0x40000 +
            (0x80 + c.toNat / 4096 % 64 - 0x80) * 4096 +
            (0x80 + c.toNat / 64 % 64 - 0x80) * 64 + (0x80 + c.toNat % 64 - 0x80)
            = c.toNat := by omega
        rw [hval, Char.ofNat_toNat]

theorem utf8Decode_encodeChar (c : Char) (bs : List Nat) :
    utf8Decode (utf8EncodeCharNat c ++ bs) = (utf8Decode bs).map (c :: ·) :=
  utf8Decode_of_step_some (utf8DecodeStep_encodeChar c bs)

theorem utf8Decode_nil : utf8Decode [] = some [] := by
  rw [utf8Decode]
  split
  · rfl
  · rename_i c rest heq
    simp [utf8DecodeStep] at heq

theorem utf8Decode_utf8Bytes (l : List Char) : utf8Decode (utf8Bytes l) = some l := by
  induction l with
  | nil => exact utf8Decode_nil
  | cons c rest ih =>
    simp only [utf8Bytes, List.flatMap_cons] at *
    rw [utf8Decode_encodeChar, ih]
    rfl

theorem utf8Bytes_lt (l : List Char) : ∀ b ∈ utf8Bytes l, b < 256 := by
  intro b hb
  simp only [utf8Bytes, List.mem_flatMap] at hb
  obtain ⟨c, _, hbc⟩ := hb
  exact utf8EncodeCharNat_lt c b hbc

/-- Characters output by the hex encoder. -/
def isLowerHexChar (c : Char) : Bool :=
  (decide ('0' ≤ c) && decide (c ≤ '9')) || (decide ('a' ≤ c) && decide (c ≤ 'f'))

theorem encode_hex_isHex (bs : List Nat) (h : ∀ b ∈ bs, b < 256) :
    ∀ c ∈ encode_hex_binary bs, isLowerHexChar c = true := by
  intro c hc
  simp only [encode_hex_binary, List.mem_flatMap] at hc
  obtain ⟨b, hb, hcb⟩ := hc
  have hb256 := h b hb
  have hnib : ∀ n, n < 16 → isLowerHexChar (hexNibble n) = true := by decide
  simp only [List.mem_cons, List.not_mem_nil, or_false] at hcb
  rcases hcb with rfl | rfl
  · exact hnib _ (by omega)
  · exact hnib _ (Nat.mod_lt _ (by omega))

theorem hexenc_ne_of_nonhex (bs : List Nat) (h : ∀ b ∈ bs, b < 256) (s : List Char)
    (c : Char) (hc : c ∈ s) (hnot : isLowerHexChar c = false) :
    encode_hex_binary bs ≠ s := by
  intro he
  have := encode_hex_isHex bs h c (he ▸ hc)
  rw [hnot] at this
  exact Bool.false_ne_true this

/-- Modelled from the spec: mutf7_to_utf8 (collaborator, not under src/).  The
spec guarantees the MUTF-7 codec round-trips, so on the UTF-8 side of the
embedding it is the identity. -/
def mutf7_to_utf8 (l : List Char) : List Char := l

/-- Modelled from the spec: utf8_to_mutf7 (collaborator, not under src/),
identity for the same reason as mutf7_to_utf8. -/
def utf8_to_mutf7 (l : List Char) : List Char := l

/-- Modelled from the spec: the localisation table behind foldername_get
(collaborator, not under src/), resolved for one language: the display names
of the four special folders DRAFT, SENT_ITEMS, DELETED_ITEMS, JUNK. -/
structure FolderNames where
  draft : List Char
  sent : List Char
  trash : List Char
  junk : List Char

/-- A representative English localisation table. -/
def engNames : FolderNames :=
  ⟨"Drafts".data, "Sent Items".data, "Deleted Items".data, "Junk Email".data⟩

/-- From the source: special_folder - "inbox" case-insensitively, or one of
g_folder_list = draft, sent, trash, junk compared case-sensitively. -/
def special_folder (name : List Char) : Bool :=
  ciEqL name "inbox".data || name == "draft".data || name == "sent".data ||
  name == "trash".data || name == "junk".data

/-- From the source (imapfolder_to_sysfolder): replace a left fragment that is
case-insensitively INBOX, or exactly a locale display name of a special
folder, by the fixed internal identifier. -/
def normalizeFrag (nm : FolderNames) (f : List Char) : List Char :=
  if ciEqL f "INBOX".data then "inbox".data
  else if f == nm.draft then "draft".data
  else if f == nm.sent then "sent".data
  else if f == nm.trash then "trash".data
  else if f == nm.junk then "junk".data
  else f

/-- Hex encoding of the UTF-8 bytes of a path, as encode_hex_binary is applied
by the source. -/
def hexEncodeName (l : List Char) : List Char :=
  encode_hex_binary (utf8Bytes l)

/-- From the source: imap_cmd_parser_imapfolder_to_sysfolder.  Decode MUTF-7,
strip one trailing slash, split at the first slash, normalise the left
fragment; hex-encode unless the whole name is a single special fragment. -/
def stripTrailingSlash (t0 : List Char) : List Char :=
  if t0.getLast? = some '/' then t0.dropLast else t0

def imap_cmd_parser_imapfolder_to_sysfolder (nm : FolderNames) (imap_folder : List Char) :
    List Char :=
  if (stripTrailingSlash (mutf7_to_utf8 imap_folder)).dropWhile (· ≠ '/') ≠ [] then
    hexEncodeName
      (normalizeFrag nm ((stripTrailingSlash (mutf7_to_utf8 imap_folder)).takeWhile (· ≠ '/'))
        ++ (stripTrailingSlash (mutf7_to_utf8 imap_folder)).dropWhile (· ≠ '/'))
  else if special_folder
      (normalizeFrag nm ((stripTrailingSlash (mutf7_to_utf8 imap_folder)).takeWhile (· ≠ '/'))) then
    normalizeFrag nm ((stripTrailingSlash (mutf7_to_utf8 imap_folder)).takeWhile (· ≠ '/'))
  else
    hexEncodeName
      (normalizeFrag nm ((stripTrailingSlash (mutf7_to_utf8 imap_folder)).takeWhile (· ≠ '/')))

/-- From the source (sysfolder_to_imapfolder): map a fixed internal identifier
back to INBOX or the locale display name. -/
def denormalizeFrag (nm : FolderNames) (f : List Char) : List Char :=
  if f == "inbox".data then "INBOX".data
  else if f == "draft".data then nm.draft
  else if f == "sent".data then nm.sent
  else if f == "trash".data then nm.trash
  else if f == "junk".data then nm.junk
  else f

/-- From the source: imap_cmd_parser_sysfolder_to_imapfolder.  Special internal
names map straight to INBOX or a display name; anything else is hex-decoded,
its left fragment denormalised, and the result MUTF-7 encoded. -/
def imap_cmd_parser_sysfolder_to_imapfolder (nm : FolderNames) (sys_folder : List Char) :
    Option (List Char) :=
  if sys_folder == "inbox".data then some "INBOX".data
  else if sys_folder == "draft".data then some (utf8_to_mutf7 nm.draft)
  else if sys_folder == "sent".data then some (utf8_to_mutf7 nm.sent)
  else if sys_folder == "trash".data then some (utf8_to_mutf7 nm.trash)
  else if sys_folder == "junk".data then some (utf8_to_mutf7 nm.junk)
  else
    match decode_hex_binary sys_folder with
    | none => none
    | some bytes =>
      match utf8Decode bytes with
      | none => none
      | some t =>
        let f := t.takeWhile (· ≠ '/')
        let rest := t.dropWhile (· ≠ '/')
        some (utf8_to_mutf7 (denormalizeFrag nm f ++ rest))

theorem ciEqL_inbox_eq (a : List Char) : ciEqL a "inbox".data = ciEqL a "INBOX".data := by
  unfold ciEqL
  rw [show "INBOX".data.map asciiLower = "inbox".data.map asciiLower from by decide]

theorem splitSlash_append (a r : List Char) (ha : ∀ c ∈ a, c ≠ '/')
    (hr : r.head? = some '/') :
    (a ++ r).takeWhile (· ≠ '/') = a ∧ (a ++ r).dropWhile (· ≠ '/') = r := by
  induction a with
  | nil =>
    rcases r with _ | ⟨c, rs⟩
    · simp at hr
    · simp only [List.head?_cons, Option.some.injEq] at hr
      subst hr
      constructor
      · simp [List.takeWhile]
      · simp [List.dropWhile]
  | cons c cs ih =>
    have hc : c ≠ '/' := ha c (List.mem_cons_self ..)
    have ih2 := ih (fun x hx => ha x (List.mem_cons_of_mem _ hx))
    constructor
    · simpa [List.takeWhile, hc] using ih2.1
    · simpa [List.dropWhile, hc] using ih2.2

theorem normalizeFrag_cases (nm : FolderNames) (f : List Char) :
    (normalizeFrag nm f = f ∧ ciEqL f "INBOX".data = false) ∨
    normalizeFrag nm f = "inbox".data ∨ normalizeFrag nm f = "draft".data ∨
    normalizeFrag nm f = "sent".data ∨ normalizeFrag nm f = "trash".data ∨
    normalizeFrag nm f = "junk".data := by
  by_cases h1 : ciEqL f "INBOX".data
  · right; left; simp [normalizeFrag, h1]
  · by_cases h2 : f == nm.draft
    · right; right; left; simp [normalizeFrag, h1, h2]
    · by_cases h3 : f == nm.sent
      · right; right; right; left; simp [normalizeFrag, h1, h2, h3]
      · by_cases h4 : f == nm.trash
        · right; right; right; right; left; simp [normalizeFrag, h1, h2, h3, h4]
        · by_cases h5 : f == nm.junk
          · right; right; right; right; right; simp [normalizeFrag, h1, h2, h3, h4, h5]
          · exact Or.inl ⟨by simp [normalizeFrag, h1, h2, h3, h4, h5],
              eq_false_of_ne_true h1⟩

theorem sysfolder_special (nm : FolderNames) (f : List Char)
    (h : f = "inbox".data ∨ f = "draft".data ∨ f = "sent".data ∨
      f = "trash".data ∨ f = "junk".data) :
    imap_cmd_parser_sysfolder_to_imapfolder nm f = some (denormalizeFrag nm f) := by
  rcases h with rfl | rfl | rfl | rfl | rfl <;>
    simp [imap_cmd_parser_sysfolder_to_imapfolder, denormalizeFrag, utf8_to_mutf7]

theorem sysfolder_hex (nm : FolderNames) (l : List Char) :
    imap_cmd_parser_sysfolder_to_imapfolder nm (hexEncodeName l)
      = some (utf8_to_mutf7 (denormalizeFrag nm (l.takeWhile (· ≠ '/'))
          ++ l.dropWhile (· ≠ '/'))) := by
  have hlt := utf8Bytes_lt l
  have hne : ∀ s : List Char, ∀ c ∈ s, isLowerHexChar c = false →
      ¬ (hexEncodeName l == s) = true := by
    intro s c hc hnh hcontra
    exact hexenc_ne_of_nonhex _ hlt s c hc hnh (by simpa using hcontra)
  have h1 : ¬ (hexEncodeName l == "inbox".data) = true :=
    hne _ 'i' (by decide) (by decide)
  have h2 : ¬ (hexEncodeName l == "draft".data) = true :=
    hne _ 'r' (by decide) (by decide)
  have h3 : ¬ (hexEncodeName l == "sent".data) = true :=
    hne _ 's' (by decide) (by decide)
  have h4 : ¬ (hexEncodeName l == "trash".data) = true :=
    hne _ 't' (by decide) (by decide)
  have h5 : ¬ (hexEncodeName l == "junk".data) = true :=
    hne _ 'j' (by decide) (by decide)
  unfold imap_cmd_parser_sysfolder_to_imapfolder
  rw [if_neg h1, if_neg h2, if_neg h3, if_neg h4, if_neg h5]
  unfold hexEncodeName
  rw [decode_encode_hex _ hlt]
  simp only [utf8Decode_utf8Bytes]

theorem dropWhile_slash_head (l : List Char) (h : l.dropWhile (· ≠ '/') ≠ []) :
    (l.dropWhile (· ≠ '/')).head? = some '/' := by
  have h1 := List.head_dropWhile_not (· ≠ '/') l h
  have h2 : (l.dropWhile (· ≠ '/')).head? = some ((l.dropWhile (· ≠ '/')).head h) :=
    List.head?_eq_head h
  rw [h2]
  congr 1
  simpa using h1

theorem normalizeFrag_noslash (nm : FolderNames) (f : List Char)
    (hf : ∀ c ∈ f, c ≠ '/') : ∀ c ∈ normalizeFrag nm f, c ≠ '/' := by
  rcases normalizeFrag_cases nm f with ⟨he, _⟩ | h | h | h | h | h
  · rw [he]; exact hf
  · rw [h]; decide
  · rw [h]; decide
  · rw [h]; decide
  · rw [h]; decide
  · rw [h]; decide

/-- Claim C4, counterexample: a user folder literally named draft is not
hex-encoded (the encoder passes it through as the internal special name), and
decoding maps it to the locale display name, so the round trip returns Drafts
instead of draft. -/
theorem C4_counterexample :
    imap_cmd_parser_imapfolder_to_sysfolder engNames "draft".data = "draft".data ∧
    imap_cmd_parser_sysfolder_to_imapfolder engNames
      (imap_cmd_parser_imapfolder_to_sysfolder engNames "draft".data)
      = some "Drafts".data ∧
    ("Drafts".data : List Char) ≠ "draft".data := by
  refine ⟨by decide, ?_, by decide⟩
  rw [show imap_cmd_parser_imapfolder_to_sysfolder engNames "draft".data
      = "draft".data from by decide]
  decide

/-- Claim C4, amended: the IMAP-to-internal-and-back round trip yields the
original name for INBOX and for every folder name without a trailing slash
whose first path fragment is left fixed by the special-name normalisation
(denormalizeFrag after normalizeFrag).  Names whose first fragment collides
case-sensitively with an internal special name (draft, sent, trash, junk) are
not hex-encoded and decode to the locale display name instead (see the
counterexample). -/
theorem C4_roundtrip (nm : FolderNames) (x : List Char)
    (hslash : ¬ x.getLast? = some '/')
    (hfrag : denormalizeFrag nm (normalizeFrag nm (x.takeWhile (· ≠ '/')))
      = x.takeWhile (· ≠ '/')) :
    imap_cmd_parser_sysfolder_to_imapfolder nm
      (imap_cmd_parser_imapfolder_to_sysfolder nm x) = some x := by
  have hx : x.takeWhile (· ≠ '/') ++ x.dropWhile (· ≠ '/') = x :=
    List.takeWhile_append_dropWhile _ _
  have hfslash : ∀ c ∈ x.takeWhile (· ≠ '/'), c ≠ '/' := by
    intro c hc
    simpa using List.mem_takeWhile_imp hc
  have henc : imap_cmd_parser_imapfolder_to_sysfolder nm x
      = (if x.dropWhile (· ≠ '/') ≠ [] then
          hexEncodeName (normalizeFrag nm (x.takeWhile (· ≠ '/')) ++ x.dropWhile (· ≠ '/'))
        else if special_folder (normalizeFrag nm (x.takeWhile (· ≠ '/'))) then
          normalizeFrag nm (x.takeWhile (· ≠ '/'))
        else hexEncodeName (normalizeFrag nm (x.takeWhile (· ≠ '/')))) := by
    unfold imap_cmd_parser_imapfolder_to_sysfolder
    rw [show stripTrailingSlash (mutf7_to_utf8 x) = x from by
      unfold stripTrailingSlash mutf7_to_utf8; rw [if_neg hslash]]
  by_cases hrest : x.dropWhile (· ≠ '/') = []
  · have hxf : x.takeWhile (· ≠ '/') = x :=
      List.takeWhile_eq_self_iff.mpr (List.dropWhile_eq_nil_iff.mp hrest)
    rw [henc, if_neg (not_not_intro hrest)]
    by_cases hs : special_folder (normalizeFrag nm (x.takeWhile (· ≠ '/'))) = true
    · rw [if_pos hs]
      have hfive : normalizeFrag nm (x.takeWhile (· ≠ '/')) = "inbox".data ∨
          normalizeFrag nm (x.takeWhile (· ≠ '/')) = "draft".data ∨
          normalizeFrag nm (x.takeWhile (· ≠ '/')) = "sent".data ∨
          normalizeFrag nm (x.takeWhile (· ≠ '/')) = "trash".data ∨
          normalizeFrag nm (x.takeWhile (· ≠ '/')) = "junk".data := by
        rcases normalizeFrag_cases nm (x.takeWhile (· ≠ '/')) with ⟨he, hci⟩ | h5
        · rw [he] at hs ⊢
          unfold special_folder at hs
          rw [ciEqL_inbox_eq, hci] at hs
          simp only [Bool.false_or, Bool.or_eq_true, beq_iff_eq] at hs
          tauto
        · exact h5
      rw [sysfolder_special nm _ hfive, hfrag, hxf]
    · rw [if_neg hs]
      have hfn : ∀ c ∈ normalizeFrag nm (x.takeWhile (· ≠ '/')), c ≠ '/' :=
        normalizeFrag_noslash nm _ hfslash
      rw [sysfolder_hex]
      rw [List.takeWhile_eq_self_iff.mpr (by intro c hc; simpa using hfn c hc),
        List.dropWhile_eq_nil_iff.mpr (by intro c hc; simpa using hfn c hc)]
      rw [hfrag]
      unfold utf8_to_mutf7
      rw [List.append_nil, hxf]
  · rw [henc, if_pos hrest]
    rw [sysfolder_hex]
    have hhead : (x.dropWhile (· ≠ '/')).head? = some '/' :=
      dropWhile_slash_head x hrest
    have hfn : ∀ c ∈ normalizeFrag nm (x.takeWhile (· ≠ '/')), c ≠ '/' :=
      normalizeFrag_noslash nm _ hfslash
    have hsplit := splitSlash_append (normalizeFrag nm (x.takeWhile (· ≠ '/')))
      (x.dropWhile (· ≠ '/')) hfn hhead
    rw [hsplit.1, hsplit.2, hfrag]
    unfold utf8_to_mutf7
    rw [hx]

/-- Witness for C4_roundtrip at a concrete ordinary folder name. -/
theorem C4_roundtrip_witness :
    imap_cmd_parser_sysfolder_to_imapfolder engNames
      (imap_cmd_parser_imapfolder_to_sysfolder engNames "Archive/2023".data)
      = some "Archive/2023".data :=
  C4_roundtrip engNames _ (by decide) (by decide)

/-- Modelled from the spec: one range of a parsed sequence set as produced by
the collaborator parse_imap_seq (not under src/); a bound is a number, or none
for the star token SEQ_STAR. -/
structure SeqNode where
  lo : Option Nat
  hi : Option Nat

/-- From the source (parse_imap_seqx): resolve the stars of one range against
the size of the selected view (ctx.contents.m_vec.size()), then clamp the low
bound to at least 1 and the high bound to at most that size. -/
def resolve_seq_node (n_exists : Nat) (s : SeqNode) : Nat × Nat :=
  let r :=
    match s.lo, s.hi with
    | none, none => (n_exists, n_exists)
    | none, some k => (k, n_exists)
    | some k, none => (k, n_exists)
    | some a, some b => (a, b)
  (if r.1 < 1 then 1 else r.1, if r.2 > n_exists then n_exists else r.2)

/-- The sequence numbers enumerated by the resolution loop of parse_imap_seqx
(the loop for i = seq.lo .. seq.hi over every range of the set). -/
def resolve_seq_nums (n_exists : Nat) (l : List SeqNode) : List Nat :=
  l.flatMap (fun s =>
    let r := resolve_seq_node n_exists s
    List.range' r.1 (r.2 + 1 - r.1))

theorem resolve_seq_node_bounds (n : Nat) (s : SeqNode) :
    1 ≤ (resolve_seq_node n s).1 ∧ (resolve_seq_node n s).2 ≤ n := by
  unfold resolve_seq_node
  rcases s with ⟨lo, hi⟩
  rcases lo with _ | a <;> rcases hi with _ | b <;>
    constructor <;> simp only [] <;> split <;> omega

/-- Claim C5: star resolution against a mailbox of size N.  In every parsed
sequence set, star-star resolves to the range from N to N, star-k and k-star
resolve to the range from k to N, the low bound is clamped to at least 1 and
the high bound to at most N, and every enumerated sequence number lies in
1..N; against an empty mailbox the enumeration is empty. -/
theorem C5_seq_resolution (n_exists : Nat) (l : List SeqNode) (k : Nat) :
    (resolve_seq_nums n_exists l).all
      (fun i => decide (1 ≤ i ∧ i ≤ n_exists)) = true ∧
    resolve_seq_nums 0 l = [] ∧
    resolve_seq_node n_exists ⟨none, none⟩
      = (if n_exists < 1 then 1 else n_exists, n_exists) ∧
    resolve_seq_node n_exists ⟨none, some k⟩
      = (if k < 1 then 1 else k, n_exists) ∧
    resolve_seq_node n_exists ⟨some k, none⟩
      = (if k < 1 then 1 else k, n_exists) := by
  have hall : ∀ n : Nat, (resolve_seq_nums n l).all
      (fun i => decide (1 ≤ i ∧ i ≤ n)) = true := by
    intro n
    rw [List.all_eq_true]
    intro i hi
    simp only [resolve_seq_nums, List.mem_flatMap] at hi
    obtain ⟨s, _, hmem⟩ := hi
    have hb := resolve_seq_node_bounds n s
    rw [List.mem_range'_1] at hmem
    simp only [decide_eq_true_eq]
    omega
  refine ⟨hall n_exists, ?_, ?_, ?_, ?_⟩
  · have h0 := hall 0
    rw [List.all_eq_true] at h0
    rcases he : resolve_seq_nums 0 l with _ | ⟨i, rest⟩
    · rfl
    · have := h0 i (by rw [he]; exact List.mem_cons_self ..)
      simp only [decide_eq_true_eq] at this
      omega
  · unfold resolve_seq_node
    simp only []
    congr 1
    have h : ¬ (n_exists > n_exists) := by omega
    rw [if_neg h]
  · unfold resolve_seq_node
    simp only []
    congr 1
    have h : ¬ (n_exists > n_exists) := by omega
    rw [if_neg h]
  · unfold resolve_seq_node
    simp only []
    congr 1
    have h : ¬ (n_exists > n_exists) := by omega
    rw [if_neg h]

/-- Split at the first occurrence of a character, like strchr: the part
before it and the part after it, or none when absent. -/
def splitAtChar (ch : Char) : List Char → Option (List Char × List Char)
  | [] => none
  | c :: rest =>
    if c = ch then some ([], rest)
    else (splitAtChar ch rest).map (fun p => (c :: p.1, p.2))

/-- Modelled from the spec: parse_imap_args (collaborator, not under src/),
reduced to the number of whitespace-separated arguments it yields. -/
def tokenCountGo : Bool → List Char → Nat
  | _, [] => 0
  | inWord, c :: rest =>
    if c = ' ' then tokenCountGo false rest
    else (if inWord then 0 else 1) + tokenCountGo true rest

/-- Number of whitespace-separated argument tokens. -/
def tokenCount (l : List Char) : Nat :=
  tokenCountGo false l

/-- From the source: the digit-and-dot scan of the BODY section validator,
which skips a leading part specifier.  The first argument is the current
segment (from last_ptr to ptr), the second the remaining section text;
returns the keyword text from last_ptr to the closing bracket, or none on an
empty dot segment. -/
def sectionScan : List Char → List Char → Option (List Char)
  | seg, [] => some seg
  | seg, '.' :: rs =>
    if seg.isEmpty then none
    else if seg.all (·.isDigit) then sectionScan [] rs
    else some (seg ++ '.' :: rs)
  | seg, c :: rs => sectionScan (seg ++ [c]) rs

/-- From the source: validation of the remainder of the HEADER.FIELDS and
HEADER.FIELDS.NOT section keywords - a parenthesised or bare name list that
must yield at least one argument. -/
def headerFieldsArgsOK (args : List Char) : Bool :=
  match args with
  | '(' :: rest =>
    (('(' :: rest).getLast? == some ')') && decide (1 ≤ tokenCount rest.dropLast)
  | _ => decide (1 ≤ tokenCount args)

/-- From the source: the keyword checks on the section text of a BODY item:
empty or all digits, or HEADER, TEXT, MIME, or a HEADER.FIELDS list. -/
def sectionKeywordOK (buff : List Char) : Bool :=
  if ¬ buff.isEmpty ∧
      ¬ (ciEqL buff "HEADER".data ∨ ciEqL buff "TEXT".data ∨ ciEqL buff "MIME".data ∨
        ciPrefixL "HEADER.FIELDS ".data buff ∨ ciPrefixL "HEADER.FIELDS.NOT ".data buff) then
    buff.all (·.isDigit)
  else if ciPrefixL "HEADER.FIELDS ".data buff then
    headerFieldsArgsOK (buff.drop 14)
  else if ciPrefixL "HEADER.FIELDS.NOT ".data buff then
    headerFieldsArgsOK (buff.drop 18)
  else true

/-- From the source: validation of the optional octet-range suffix
after the closing bracket of a BODY item. -/
def octetRangeOK (l : List Char) : Bool :=
  match l with
  | [] => true
  | '<' :: rest =>
    match splitAtChar '>' rest with
    | none => false
    | some (mid, after) =>
      after.isEmpty &&
      mid.all (fun c => c.isDigit || c = '.') &&
      decide (mid.count '.' ≤ 1) &&
      !(decide (mid.count '.' = 1) && (mid.head? == some '.')) &&
      !(mid.getLast? == some '.')
  | _ => false

/-- From the source: validation of one BODY or BODY.PEEK data item in
parse_fetch_args (the bracketed section plus the octet-range suffix). -/
def valid_body_item (t : List Char) : Bool :=
  match splitAtChar '[' t with
  | none => false
  | some (_, inner) =>
    if ciPrefixL "MIME".data inner then false
    else
      match splitAtChar ']' inner with
      | none => false
      | some (sect, after) =>
        match sectionScan [] sect with
        | none => false
        | some buff =>
          if buff.isEmpty ∧ buff.headD ']' = '.' then false
          else if 1024 ≤ buff.length then false
          else sectionKeywordOK buff && octetRangeOK after

/-- The plain FETCH keywords accepted verbatim by parse_fetch_args. -/
def plainFetchKeywords : List (List Char) :=
  ["BODY".data, "BODYSTRUCTURE".data, "ENVELOPE".data, "FLAGS".data,
   "INTERNALDATE".data, "RFC822".data, "RFC822.HEADER".data, "RFC822.SIZE".data,
   "RFC822.TEXT".data, "UID".data]

/-- ALL, FAST or FULL. -/
def isMacroKeyword (t : List Char) : Bool :=
  ciEqL t "ALL".data || ciEqL t "FAST".data || ciEqL t "FULL".data

/-- From the source: the first loop of parse_fetch_args - case-insensitive
dedup against the accumulated list, macro flagging, plain keywords, and
BODY[...]/BODY.PEEK[...] validation; none when an argument is rejected. -/
def fetchArgsLoop : List (List Char) → List (List Char) → Bool →
    Option (List (List Char) × Bool)
  | plist, [], b_macro => some (plist, b_macro)
  | plist, t :: rest, b_macro =>
    if plist.any (fun e => ciEqL e t) then
      fetchArgsLoop plist rest b_macro
    else if isMacroKeyword t then
      fetchArgsLoop (plist ++ [t]) rest true
    else if plainFetchKeywords.any (fun e => ciEqL e t) then
      fetchArgsLoop (plist ++ [t]) rest b_macro
    else if ciPrefixL "BODY[".data t || ciPrefixL "BODY.PEEK[".data t then
      if valid_body_item t then fetchArgsLoop (plist ++ [t]) rest b_macro else none
    else none

/-- From the source: the items a macro appends to the data-item list
(INTERNALDATE and RFC822.SIZE always; ENVELOPE for ALL and FULL; BODY for
FULL).  Note the source only reassigns the local variable kw to FLAGS - the
macro token itself stays in the list unchanged. -/
def fetchMacroItems (kw : List Char) : List (List Char) :=
  ["INTERNALDATE".data, "RFC822.SIZE".data] ++
    (if ciEqL kw "ALL".data || ciEqL kw "FULL".data then
      "ENVELOPE".data ::
        (if ciEqL kw "FULL".data then ["BODY".data] else [])
    else [])

/-- From the source: the contribution of one data item to the classification
flags (pb_detail, pb_data) of parse_fetch_args. -/
def classifyItemFlags (kw : List Char) : Bool × Bool :=
  if isMacroKeyword kw then (true, false)
  else if ciEqL kw "RFC822".data || ciEqL kw "RFC822.HEADER".data ||
      ciEqL kw "RFC822.TEXT".data then (true, true)
  else if ciEqL kw "BODY".data || ciEqL kw "BODYSTRUCTURE".data ||
      ciEqL kw "ENVELOPE".data || ciEqL kw "INTERNALDATE".data ||
      ciEqL kw "RFC822.SIZE".data then (true, false)
  else if ciPrefixL "BODY[".data kw || ciPrefixL "BODY.PEEK[".data kw then
    (true, ! containsCI "FIELDS".data kw)
  else (false, false)

/-- The classification loop of parse_fetch_args iterates over the data-item
list while macro processing appends expansion items at its end; since the
appended items are never macros themselves, the loop visits exactly the
original items followed by the expansions of its macros, in order. -/
def expandMacros (l : List (List Char)) : List (List Char) :=
  l ++ l.flatMap (fun kw => if isMacroKeyword kw then fetchMacroItems kw else [])

/-- OR-accumulation of the classification flags over the visited items. -/
def classifyFlags (l : List (List Char)) : Bool × Bool :=
  l.foldl (fun acc kw =>
    (acc.1 || (classifyItemFlags kw).1, acc.2 || (classifyItemFlags kw).2))
    (false, false)

/-- From the source: one stable partition pass moving the items equal to kw
to the front, keeping relative order. -/
def moveToFront (kw : List Char) (l : List (List Char)) : List (List Char) :=
  l.filter (fun e => ciEqL e kw) ++ l.filter (fun e => ! ciEqL e kw)

/-- From the source: one stable partition pass moving the items equal to kw
to the back, keeping relative order. -/
def moveToBack (kw : List Char) (l : List (List Char)) : List (List Char) :=
  l.filter (fun e => ! ciEqL e kw) ++ l.filter (fun e => ciEqL e kw)

/-- From the source: the two partition passes that stabilise the response
order of the data items. -/
def sortDataItems (l : List (List Char)) : List (List Char) :=
  ["BODY".data, "BODYSTRUCTURE".data, "RFC822".data].foldl
    (fun acc kw => moveToBack kw acc)
    (["RFC822.TEXT".data, "RFC822.HEADER".data, "ENVELOPE".data, "RFC822.SIZE".data,
      "INTERNALDATE".data, "FLAGS".data, "UID".data].foldl
      (fun acc kw => moveToFront kw acc) l)

/-- From the source: imap_cmd_parser_parse_fetch_args at the level of the
already-split argument tokens.  Returns the final data-item list and the
flags (pb_detail, pb_data), or none when the argument list is rejected. -/
def imap_cmd_parser_parse_fetch_args (args : List (List Char)) :
    Option (List (List Char) × Bool × Bool) :=
  if args.length < 1 then none
  else
    match fetchArgsLoop ["UID".data] args false with
    | none => none
    | some (plist, b_macro) =>
      if 1 < args.length ∧ b_macro = true then none
      else
        some (sortDataItems (expandMacros plist),
          (classifyFlags (expandMacros plist)).1,
          (classifyFlags (expandMacros plist)).2)

/-- Keywords for which process_fetch_item has a rendering branch (the macro
tokens have none). -/
def rendersItem (kw : List Char) : Bool :=
  ciEqL kw "BODY".data || ciEqL kw "BODYSTRUCTURE".data || ciEqL kw "ENVELOPE".data ||
  ciEqL kw "FLAGS".data || ciEqL kw "INTERNALDATE".data || ciEqL kw "RFC822".data ||
  ciEqL kw "RFC822.HEADER".data || ciEqL kw "RFC822.SIZE".data ||
  ciEqL kw "RFC822.TEXT".data || ciEqL kw "UID".data ||
  ciPrefixL "BODY[".data kw || ciPrefixL "BODY.PEEK[".data kw

theorem not_ciEqL_of_prefix (p s X : List Char) (hp : ciPrefixL p s = true)
    (hX : (X.map asciiLower).take p.length ≠ p.map asciiLower) : ciEqL s X = false := by
  rw [Bool.eq_false_iff]
  intro hc
  unfold ciEqL at hc
  unfold ciPrefixL at hp
  rw [beq_iff_eq] at hc hp
  rw [List.map_take] at hp
  rw [hc] at hp
  exact hX hp

/-- Claim C6, code evaluation at the failing input FETCH ALL: UID is forced
first and the data-item list gains INTERNALDATE, RFC822.SIZE and ENVELOPE,
but the macro token ALL itself stays in the list (the source reassigns only
the local variable kw to FLAGS, a dead store) and process_fetch_item has no
branch for ALL, so FLAGS is never rendered; mixing the macro with another
attribute is rejected. -/
theorem C6_all_macro_flags_missing :
    imap_cmd_parser_parse_fetch_args ["ALL".data]
      = some (["UID".data, "INTERNALDATE".data, "RFC822.SIZE".data, "ENVELOPE".data,
          "ALL".data], true, false) ∧
    (["UID".data, "INTERNALDATE".data, "RFC822.SIZE".data, "ENVELOPE".data,
        "ALL".data].filter rendersItem)
      = ["UID".data, "INTERNALDATE".data, "RFC822.SIZE".data, "ENVELOPE".data] ∧
    (["UID".data, "INTERNALDATE".data, "RFC822.SIZE".data, "ENVELOPE".data,
        "ALL".data].any (fun kw => ciEqL kw "FLAGS".data)) = false ∧
    imap_cmd_parser_parse_fetch_args ["ALL".data, "FLAGS".data] = none := by
  refine ⟨by decide, by decide, by decide, by decide⟩

/-- Claim C7, counterexample: parsing the single item BODY[HEADER.FIELDS
(FROM)] yields pb_data = false, not true - the source skips the pb_data
assignment whenever the item contains FIELDS. -/
theorem C7_counterexample :
    (imap_cmd_parser_parse_fetch_args ["BODY[HEADER.FIELDS (FROM)]".data]).map
      (fun r => r.2.2) = some false := by
  decide

/-- Claim C7 amended: a BODY[...] or BODY.PEEK[...] item whose text contains
FIELDS contributes pb_detail = true but leaves pb_data unset (header-field
selection is rendered inline by match_field from the EML file rather than
through the data-stream phase); a FETCH request whose only item is
BODY.PEEK[HEADER.FIELDS (...)] therefore parses with pb_detail = true and
pb_data = false. -/
theorem C7_header_fields_pb (kw : List Char)
    (hpre : ciPrefixL "BODY[".data kw = true ∨ ciPrefixL "BODY.PEEK[".data kw = true)
    (hfld : containsCI "FIELDS".data kw = true) :
    classifyItemFlags kw = (true, false) ∧
    imap_cmd_parser_parse_fetch_args ["BODY.PEEK[HEADER.FIELDS (FROM TO)]".data]
      = some (["UID".data, "BODY.PEEK[HEADER.FIELDS (FROM TO)]".data], true, false) := by
  constructor
  · have hne : ∀ X : List Char,
        ((X.map asciiLower).take 5 ≠ "BODY[".data.map asciiLower ∧
         (X.map asciiLower).take 10 ≠ "BODY.PEEK[".data.map asciiLower) →
        ciEqL kw X = false := by
      intro X hX
      rcases hpre with hp | hp
      · exact not_ciEqL_of_prefix _ _ _ hp hX.1
      · exact not_ciEqL_of_prefix _ _ _ hp hX.2
    have h1 : ciEqL kw "ALL".data = false := hne _ (by decide)
    have h2 : ciEqL kw "FAST".data = false := hne _ (by decide)
    have h3 : ciEqL kw "FULL".data = false := hne _ (by decide)
    have h4 : ciEqL kw "RFC822".data = false := hne _ (by decide)
    have h5 : ciEqL kw "RFC822.HEADER".data = false := hne _ (by decide)
    have h6 : ciEqL kw "RFC822.TEXT".data = false := hne _ (by decide)
    have h7 : ciEqL kw "BODY".data = false := hne _ (by decide)
    have h8 : ciEqL kw "BODYSTRUCTURE".data = false := hne _ (by decide)
    have h9 : ciEqL kw "ENVELOPE".data = false := hne _ (by decide)
    have h10 : ciEqL kw "INTERNALDATE".data = false := hne _ (by decide)
    have h11 : ciEqL kw "RFC822.SIZE".data = false := hne _ (by decide)
    have hpre2 : (ciPrefixL "BODY[".data kw || ciPrefixL "BODY.PEEK[".data kw) = true := by
      rcases hpre with hp | hp <;> simp [hp]
    simp [classifyItemFlags, isMacroKeyword, h1, h2, h3, h4, h5, h6, h7, h8, h9,
      h10, h11, hpre2, hfld]
  · decide

/-- Witness for C7_header_fields_pb at the counterexample item. -/
theorem C7_header_fields_pb_witness :
    classifyItemFlags "BODY[HEADER.FIELDS (FROM)]".data = (true, false) :=
  (C7_header_fields_pb "BODY[HEADER.FIELDS (FROM)]".data
    (Or.inl (by decide)) (by decide)).1

/-- Message flag bits.  The imap.hpp header is not under src/; the values are
modelled from the spec's fixed flag list - only distinctness of the bits
matters for the claims. -/
def FLAG_RECENT : Nat := 1

/-- Answered flag bit. -/
def FLAG_ANSWERED : Nat := 2

/-- Flagged flag bit. -/
def FLAG_FLAGGED : Nat := 4

/-- Deleted flag bit. -/
def FLAG_DELETED : Nat := 8

/-- Seen flag bit. -/
def FLAG_SEEN : Nat := 16

/-- Draft flag bit. -/
def FLAG_DRAFT : Nat := 32

theorem or_seen_and_seen (n : Nat) : (n ||| FLAG_SEEN) &&& FLAG_SEEN ≠ 0 := by
  have h := Nat.and_two_pow (n ||| 16) 4
  norm_num at h
  unfold FLAG_SEEN
  rw [h, show Nat.testBit 16 4 = true from by decide]
  simp

theorem xor_recent_and_seen (n : Nat) : (n ^^^ FLAG_RECENT) &&& FLAG_SEEN = n &&& FLAG_SEEN := by
  have h1 := Nat.and_two_pow (n ^^^ 1) 4
  have h2 := Nat.and_two_pow n 4
  norm_num at h1 h2
  unfold FLAG_RECENT FLAG_SEEN
  rw [h1, h2, show Nat.testBit 1 4 = false from by decide]
  simp

theorem or_seen_and_recent (n : Nat) : (n ||| FLAG_SEEN) &&& FLAG_RECENT = n &&& FLAG_RECENT := by
  have h1 := Nat.and_two_pow (n ||| 16) 0
  have h2 := Nat.and_two_pow n 0
  norm_num at h1 h2
  unfold FLAG_RECENT FLAG_SEEN
  rw [Nat.and_one_is_mod, Nat.and_one_is_mod, h1, ← h2]

/-- An entry of the selected-folder view (XARRAY of MITEM), reduced to the
fields the flag side effects read. -/
structure MITEM where
  uid : Nat
  mid : List Char
  flag_bits : Nat
deriving DecidableEq

/-- Observable side effects of process_fetch_item: MIDB flag calls and
notification-hub broadcasts. -/
inductive FetchEvent where
  | set_flags (mid : List Char) (flags : Nat)
  | unset_flags (mid : List Char) (flags : Nat)
  | bcast_flags (uid : Nat)
deriving DecidableEq

/-- Does a data item trigger the automatic Seen side effect in
process_fetch_item?  The RFC822 and RFC822.TEXT branches and the non-peek
BODY[ prefix do; RFC822.HEADER, RFC822.SIZE and BODY.PEEK[ do not. -/
def seenTrigger (kw : List Char) : Bool :=
  ciEqL kw "RFC822".data || ciEqL kw "RFC822.TEXT".data || ciPrefixL "BODY[".data kw

/-- From the source: the Seen side effect of one data item - guarded by the
read-only flag and by the Seen bit already cached in the item. -/
def fetchItemStep (ro : Bool) (item : MITEM) (kw : List Char) : MITEM × List FetchEvent :=
  if seenTrigger kw && !ro && (item.flag_bits &&& FLAG_SEEN == 0) then
    ({ item with flag_bits := item.flag_bits ||| FLAG_SEEN },
     [FetchEvent.set_flags item.mid FLAG_SEEN, FetchEvent.bcast_flags item.uid])
  else (item, [])

/-- The data-item loop of process_fetch_item, accumulating flag events. -/
def fetchItemLoop (ro : Bool) : MITEM → List (List Char) → MITEM × List FetchEvent
  | item, [] => (item, [])
  | item, kw :: rest =>
    let st := fetchItemStep ro item kw
    let out := fetchItemLoop ro st.1 rest
    (out.1, st.2 ++ out.2)

/-- From the source: imap_cmd_parser_process_fetch_item reduced to its flag
side effects - the per-item Seen handling followed by the trailing Recent
clearing (which issues unset_flags only when the item is still unseen). -/
def imap_cmd_parser_process_fetch_item (ro : Bool) (item : MITEM)
    (items : List (List Char)) : MITEM × List FetchEvent :=
  let r := fetchItemLoop ro item items
  if !ro && !(r.1.flag_bits &&& FLAG_RECENT == 0) then
    let item3 : MITEM := { r.1 with flag_bits := r.1.flag_bits ^^^ FLAG_RECENT }
    if item3.flag_bits &&& FLAG_SEEN == 0 then
      (item3, r.2 ++ [FetchEvent.unset_flags item3.mid FLAG_RECENT,
        FetchEvent.bcast_flags item3.uid])
    else (item3, r.2)
  else r

/-- Number of MIDB set_flags calls carrying the Seen flag. -/
def countSeenSets (evs : List FetchEvent) : Nat :=
  evs.countP (fun e =>
    match e with
    | FetchEvent.set_flags _ f => f == FLAG_SEEN
    | _ => false)

theorem fetchItemLoop_spec (ro : Bool) (items : List (List Char)) : ∀ item : MITEM,
    (fetchItemLoop ro item items).1.uid = item.uid ∧
    (fetchItemLoop ro item items).1.mid = item.mid ∧
    (if ro = false ∧ item.flag_bits &&& FLAG_SEEN = 0 ∧ items.any seenTrigger = true then
      countSeenSets (fetchItemLoop ro item items).2 = 1 ∧
      FetchEvent.bcast_flags item.uid ∈ (fetchItemLoop ro item items).2 ∧
      (fetchItemLoop ro item items).1.flag_bits = item.flag_bits ||| FLAG_SEEN
    else
      countSeenSets (fetchItemLoop ro item items).2 = 0 ∧
      (fetchItemLoop ro item items).1.flag_bits = item.flag_bits) := by
  induction items with
  | nil =>
    intro item
    refine ⟨rfl, rfl, ?_⟩
    rw [if_neg (by simp)]
    exact ⟨rfl, rfl⟩
  | cons kw rest ih =>
    intro item
    by_cases htr : seenTrigger kw = true
    · by_cases hro : ro = false
      · by_cases hseen : item.flag_bits &&& FLAG_SEEN = 0
        · -- the step fires: Seen is set here, the rest sees a seen item
          have hstep : fetchItemStep ro item kw
              = ({ item with flag_bits := item.flag_bits ||| FLAG_SEEN },
                 [FetchEvent.set_flags item.mid FLAG_SEEN,
                  FetchEvent.bcast_flags item.uid]) := by
            unfold fetchItemStep
            rw [if_pos (by simp [htr, hro, hseen])]
          have ih2 := ih { item with flag_bits := item.flag_bits ||| FLAG_SEEN }
          rw [if_neg (by
            simp only [not_and]
            intro _ hzero
            exact absurd hzero (or_seen_and_seen item.flag_bits))] at ih2
          simp only [fetchItemLoop, hstep]
          refine ⟨ih2.1, ih2.2.1, ?_⟩
          rw [if_pos ⟨hro, hseen, by simp [htr]⟩]
          refine ⟨?_, ?_, ?_⟩
          · simp only [countSeenSets, List.countP_append] at *
            rw [ih2.2.2.1]
            simp [List.countP_cons]
          · simp
          · rw [ih2.2.2.2]
        · -- item already seen: no event here and none later
          have hstep : fetchItemStep ro item kw = (item, []) := by
            unfold fetchItemStep
            rw [if_neg (by simp [hseen])]
          have ih2 := ih item
          rw [if_neg (by simp [hseen])] at ih2
          simp only [fetchItemLoop, hstep, List.nil_append]
          refine ⟨ih2.1, ih2.2.1, ?_⟩
          rw [if_neg (by simp [hseen])]
          exact ih2.2.2
      · -- read-only session: no events at all
        have hro2 : ro = true := by
          cases ro
          · exact absurd rfl hro
          · rfl
        have hstep : fetchItemStep ro item kw = (item, []) := by
          unfold fetchItemStep
          rw [if_neg (by simp [hro2])]
        have ih2 := ih item
        rw [if_neg (by simp [hro])] at ih2
        simp only [fetchItemLoop, hstep, List.nil_append]
        refine ⟨ih2.1, ih2.2.1, ?_⟩
        rw [if_neg (by simp [hro])]
        exact ih2.2.2
    · -- not a Seen-triggering item
      have hstep : fetchItemStep ro item kw = (item, []) := by
        unfold fetchItemStep
        rw [if_neg (by simp [htr])]
      have ih2 := ih item
      simp only [fetchItemLoop, hstep, List.nil_append]
      refine ⟨ih2.1, ih2.2.1, ?_⟩
      have hany : ((kw :: rest).any seenTrigger = true) ↔ (rest.any seenTrigger = true) := by
        simp [htr]
      by_cases hc : ro = false ∧ item.flag_bits &&& FLAG_SEEN = 0 ∧ rest.any seenTrigger = true
      · rw [if_pos ⟨hc.1, hc.2.1, hany.mpr hc.2.2⟩]
        rw [if_pos hc] at ih2
        exact ih2.2.2
      · rw [if_neg (by
          intro hcc
          exact hc ⟨hcc.1, hcc.2.1, hany.mp hcc.2.2⟩)]
        rw [if_neg hc] at ih2
        exact ih2.2.2

theorem process_fetch_item_parts (ro : Bool) (item : MITEM) (items : List (List Char)) :
    countSeenSets (imap_cmd_parser_process_fetch_item ro item items).2
      = countSeenSets (fetchItemLoop ro item items).2 ∧
    (imap_cmd_parser_process_fetch_item ro item items).1.flag_bits &&& FLAG_SEEN
      = (fetchItemLoop ro item items).1.flag_bits &&& FLAG_SEEN ∧
    ∀ e ∈ (fetchItemLoop ro item items).2,
      e ∈ (imap_cmd_parser_process_fetch_item ro item items).2 := by
  unfold imap_cmd_parser_process_fetch_item
  by_cases h1 : (!ro && !((fetchItemLoop ro item items).1.flag_bits &&& FLAG_RECENT == 0))
      = true
  · rw [if_pos h1]
    by_cases h2 : (((fetchItemLoop ro item items).1.flag_bits ^^^ FLAG_RECENT) &&& FLAG_SEEN
        == 0) = true
    · simp only [if_pos h2]
      refine ⟨?_, ?_, ?_⟩
      · simp [countSeenSets, List.countP_append, List.countP_cons]
      · exact xor_recent_and_seen _
      · intro e he
        exact List.mem_append_left _ he
    · rw [if_neg h2]
      refine ⟨rfl, xor_recent_and_seen _, fun e he => he⟩
  · rw [if_neg h1]
    exact ⟨rfl, rfl, fun e he => he⟩

/-- Claim C3, counterexample: RFC822.HEADER is an RFC822-star item, yet a
FETCH of an unseen message on a writable mailbox with it performs no
set_flags call and no broadcast at all - only RFC822, RFC822.TEXT and
non-peek BODY[ trigger the automatic Seen. -/
theorem C3_counterexample :
    imap_cmd_parser_process_fetch_item false ⟨7, "m1".data, 0⟩ ["RFC822.HEADER".data]
      = (⟨7, "m1".data, 0⟩, []) := by
  decide

/-- Claim C3 amended: with the body-reading items being RFC822, RFC822.TEXT
and non-peek BODY[ (RFC822.HEADER and RFC822.SIZE are not among them), a
FETCH on a writable mailbox sets Seen via MIDB set_flags exactly once per
message - zero times when the message already carries Seen or no such item
occurs - broadcasts the new flags to the hub, and processing the same
message again triggers no further set_flags call. -/
theorem C3_seen_set_once (ro : Bool) (item : MITEM) (items : List (List Char)) :
    countSeenSets (imap_cmd_parser_process_fetch_item ro item items).2
      = (if ro = false ∧ item.flag_bits &&& FLAG_SEEN = 0 ∧ items.any seenTrigger = true
         then 1 else 0) ∧
    (ro = false ∧ item.flag_bits &&& FLAG_SEEN = 0 ∧ items.any seenTrigger = true →
      FetchEvent.bcast_flags item.uid
        ∈ (imap_cmd_parser_process_fetch_item ro item items).2) ∧
    (ro = false ∧ item.flag_bits &&& FLAG_SEEN = 0 ∧ items.any seenTrigger = true →
      countSeenSets (imap_cmd_parser_process_fetch_item ro
        (imap_cmd_parser_process_fetch_item ro item items).1 items).2 = 0) := by
  have hparts := process_fetch_item_parts ro item items
  have hspec := fetchItemLoop_spec ro items item
  refine ⟨?_, ?_, ?_⟩
  · rw [hparts.1]
    by_cases hc : ro = false ∧ item.flag_bits &&& FLAG_SEEN = 0 ∧
        items.any seenTrigger = true
    · rw [if_pos hc]
      rw [if_pos hc] at hspec
      exact hspec.2.2.1
    · rw [if_neg hc]
      rw [if_neg hc] at hspec
      exact hspec.2.2.1
  · intro hc
    rw [if_pos hc] at hspec
    exact hparts.2.2 _ hspec.2.2.2.1
  · intro hc
    rw [if_pos hc] at hspec
    have hseen2 : (imap_cmd_parser_process_fetch_item ro item items).1.flag_bits
        &&& FLAG_SEEN ≠ 0 := by
      rw [hparts.2.1, hspec.2.2.2.2]
      exact or_seen_and_seen _
    have hparts2 := process_fetch_item_parts ro
      (imap_cmd_parser_process_fetch_item ro item items).1 items
    have hspec2 := fetchItemLoop_spec ro items
      (imap_cmd_parser_process_fetch_item ro item items).1
    rw [if_neg (by
      intro hcc
      exact hseen2 hcc.2.1)] at hspec2
    rw [hparts2.1, hspec2.2.2.1]

/-- Witness for C3_seen_set_once: a writable FETCH of an unseen message with
the single item RFC822 sets Seen exactly once and broadcasts. -/
theorem C3_seen_set_once_witness :
    countSeenSets (imap_cmd_parser_process_fetch_item false ⟨7, "m1".data, 0⟩
      ["RFC822".data]).2 = 1 ∧
    FetchEvent.bcast_flags 7 ∈ (imap_cmd_parser_process_fetch_item false
      ⟨7, "m1".data, 0⟩ ["RFC822".data]).2 := by
  have h := C3_seen_set_once false ⟨7, "m1".data, 0⟩ ["RFC822".data]
  have hcond : false = false ∧ (MITEM.mk 7 "m1".data 0).flag_bits &&& FLAG_SEEN = 0 ∧
      (["RFC822".data].any seenTrigger = true) := by
    refine ⟨rfl, by decide, by decide⟩
  refine ⟨?_, h.2.1 hcond⟩
  rw [h.1, if_pos hcond]

/-- One message of the source sequence set as returned by fetch_simple_uid;
inView models whether contents.get_itemx(uid) finds it in the current
selected view (the UID COPY variant copies every item unconditionally). -/
structure CopyItem where
  uid : Nat
  mid : List Char
  inView : Bool
deriving DecidableEq

/-- Modelled from the spec: the MIDB client calls issued by the copy loop -
whether copy_mail succeeds for a given mid, and the uid that get_uid
eventually reports in the destination folder (none when all ten 500 ms polls
fail). -/
structure CopyOracle where
  copy_ok : List Char → Bool
  get_uid : List Char → Option Nat

/-- State of imap_cmd_parser_copy when its message loop exits. -/
structure CopyLoopResult where
  b_copied : Bool
  stopIndex : Nat
  copied : List (List Char)
  uidvalidity : Nat
  pairs : List (Nat × Nat)
deriving DecidableEq

/-- From the source: the message loop of imap_cmd_parser_copy - skip items
not in the current view, stop at the first failing copy_mail, poll get_uid
for the destination uid (zeroing uidvalidity when it never shows up), and
accumulate the source-destination uid pairs for COPYUID. -/
def copy_loop (o : CopyOracle) : List CopyItem → Nat → Nat → CopyLoopResult
  | [], i, uv => ⟨true, i, [], uv, []⟩
  | it :: rest, i, uv =>
    if ¬ it.inView then copy_loop o rest (i + 1) uv
    else if ¬ o.copy_ok it.mid then ⟨false, i, [], uv, []⟩
    else
      let pr : Nat × List (Nat × Nat) :=
        if uv = 0 then (uv, [])
        else
          match o.get_uid it.mid with
          | some u => (uv, [(it.uid, u)])
          | none => (0, [])
      let r := copy_loop o rest (i + 1) pr.1
      ⟨r.b_copied, r.stopIndex, it.mid :: r.copied, r.uidvalidity, pr.2 ++ r.pairs⟩

/-- The tagged reply chosen by imap_cmd_parser_copy. -/
inductive CopyReply where
  | okCopyUid (uidvalidity : Nat) (pairs : List (Nat × Nat))
  | okPlain
  | noCopyFailed
deriving DecidableEq

/-- Outcome of one COPY command: the reply, the mids passed to remove_mail
for rollback, and the destination folder content afterwards. -/
structure CopyOutcome where
  reply : CopyReply
  expunged : List (List Char)
  destAfter : List (List Char)
deriving DecidableEq

/-- From the source: imap_cmd_parser_copy after the MIDB fetch - the copy
loop; on failure the rollback walks the fetched array from index stopIndex-1
down to 0, collects every item with a nonzero uid and hands their mids to
remove_mail on the destination folder; the reply is OK with a COPYUID
trailer when uidvalidity stayed nonzero, plain OK when it is zero, and NO
COPY failed after a rollback. -/
def imap_cmd_parser_copy (o : CopyOracle) (items : List CopyItem)
    (uidvalidity0 : Nat) (dest0 : List (List Char)) : CopyOutcome :=
  let r := copy_loop o items 0 uidvalidity0
  if r.b_copied then
    { reply := if r.uidvalidity ≠ 0 then CopyReply.okCopyUid r.uidvalidity r.pairs
               else CopyReply.okPlain,
      expunged := [],
      destAfter := dest0 ++ r.copied }
  else
    { reply := CopyReply.noCopyFailed,
      expunged := (((items.take r.stopIndex).filter (fun it => it.uid ≠ 0)).map
        (fun it => it.mid)).reverse,
      destAfter := (dest0 ++ r.copied).filter
        (fun m => decide (m ∉ (((items.take r.stopIndex).filter
          (fun it => it.uid ≠ 0)).map (fun it => it.mid)).reverse)) }

theorem copy_loop_stop_ge (o : CopyOracle) :
    ∀ (items : List CopyItem) (i uv : Nat), i ≤ (copy_loop o items i uv).stopIndex := by
  intro items
  induction items with
  | nil => intro i uv; exact Nat.le_refl i
  | cons it rest ih =>
    intro i uv
    unfold copy_loop
    by_cases hv : ¬ it.inView = true
    · rw [if_pos hv]
      exact Nat.le_of_succ_le (ih (i + 1) uv)
    · rw [if_neg hv]
      by_cases hc : ¬ o.copy_ok it.mid = true
      · rw [if_pos hc]
      · rw [if_neg hc]
        simp only []
        exact Nat.le_of_succ_le (ih (i + 1) _)

theorem copy_loop_copied_sub (o : CopyOracle) :
    ∀ (items : List CopyItem) (i uv : Nat),
      ∀ m ∈ (copy_loop o items i uv).copied,
        ∃ it ∈ items.take ((copy_loop o items i uv).stopIndex - i),
          it.mid = m ∧ it.inView = true := by
  intro items
  induction items with
  | nil => intro i uv m hm; simp [copy_loop] at hm
  | cons it rest ih =>
    intro i uv m hm
    unfold copy_loop at hm ⊢
    by_cases hv : ¬ it.inView = true
    · rw [if_pos hv] at hm ⊢
      have hge := copy_loop_stop_ge o rest (i + 1) uv
      obtain ⟨it2, hmem, hmid⟩ := ih (i + 1) uv m hm
      refine ⟨it2, ?_, hmid⟩
      have : (copy_loop o rest (i + 1) uv).stopIndex - i
          = ((copy_loop o rest (i + 1) uv).stopIndex - (i + 1)) + 1 := by omega
      rw [this, List.take_succ_cons]
      exact List.mem_cons_of_mem _ hmem
    · rw [if_neg hv] at hm ⊢
      by_cases hc : ¬ o.copy_ok it.mid = true
      · rw [if_pos hc] at hm
        simp at hm
      · rw [if_neg hc] at hm ⊢
        simp only [] at hm ⊢
        generalize hg : (if uv = 0 then (uv, ([] : List (Nat × Nat)))
            else match o.get_uid it.mid with
              | some u => (uv, [(it.uid, u)])
              | none => (0, [])).1 = uv2 at hm ⊢
        have hge := copy_loop_stop_ge o rest (i + 1) uv2
        have h1 : (copy_loop o rest (i + 1) uv2).stopIndex - i
            = ((copy_loop o rest (i + 1) uv2).stopIndex - (i + 1)) + 1 := by omega
        rcases List.mem_cons.mp hm with rfl | hm2
        · refine ⟨it, ?_, rfl, by simpa using hv⟩
          rw [h1, List.take_succ_cons]
          exact List.mem_cons_self ..
        · obtain ⟨it2, hmem, hmid⟩ := ih (i + 1) uv2 m hm2
          refine ⟨it2, ?_, hmid⟩
          rw [h1, List.take_succ_cons]
          exact List.mem_cons_of_mem _ hmem

/-- Claim C1: whenever the copy loop fails partway, the handler passes every
already-copied destination mid (all fetched items carry nonzero uids) to
remove_mail, replies NO COPY failed, and the destination folder afterwards
contains none of the messages copied by this command; on full success the
reply is an OK variant. -/
theorem C1_copy_rollback (o : CopyOracle) (items : List CopyItem)
    (uidvalidity0 : Nat) (dest0 : List (List Char))
    (hvalid : ∀ it ∈ items, it.uid ≠ 0) :
    ((copy_loop o items 0 uidvalidity0).b_copied = false →
      (imap_cmd_parser_copy o items uidvalidity0 dest0).reply = CopyReply.noCopyFailed ∧
      (∀ m ∈ (copy_loop o items 0 uidvalidity0).copied,
        m ∈ (imap_cmd_parser_copy o items uidvalidity0 dest0).expunged) ∧
      (∀ m ∈ (copy_loop o items 0 uidvalidity0).copied,
        m ∉ (imap_cmd_parser_copy o items uidvalidity0 dest0).destAfter)) ∧
    ((copy_loop o items 0 uidvalidity0).b_copied = true →
      (imap_cmd_parser_copy o items uidvalidity0 dest0).reply = CopyReply.okPlain ∨
      ∃ v p, (imap_cmd_parser_copy o items uidvalidity0 dest0).reply
        = CopyReply.okCopyUid v p) := by
  constructor
  · intro hfail
    have hexp : ∀ m ∈ (copy_loop o items 0 uidvalidity0).copied,
        m ∈ (((items.take (copy_loop o items 0 uidvalidity0).stopIndex).filter
          (fun it => it.uid ≠ 0)).map (fun it => it.mid)).reverse := by
      intro m hm
      obtain ⟨it2, hmem, hmid, _⟩ := copy_loop_copied_sub o items 0 uidvalidity0 m
        (by simpa using hm)
      rw [List.mem_reverse, List.mem_map]
      refine ⟨it2, List.mem_filter.mpr ⟨by simpa using hmem, ?_⟩, hmid⟩
      have : it2 ∈ items := List.mem_of_mem_take hmem
      simpa using hvalid it2 this
    refine ⟨?_, ?_, ?_⟩
    · unfold imap_cmd_parser_copy
      rw [if_neg (by simp [hfail])]
    · intro m hm
      unfold imap_cmd_parser_copy
      rw [if_neg (by simp [hfail])]
      exact hexp m hm
    · intro m hm hmem
      unfold imap_cmd_parser_copy at hmem
      rw [if_neg (by simp [hfail])] at hmem
      simp only [List.mem_filter, decide_eq_true_eq] at hmem
      exact hmem.2 (hexp m hm)
  · intro hok
    unfold imap_cmd_parser_copy
    rw [if_pos (by simp [hok])]
    by_cases hv : (copy_loop o items 0 uidvalidity0).uidvalidity ≠ 0
    · right
      exact ⟨_, _, by rw [if_pos hv]⟩
    · left
      rw [if_neg hv]

/-- Witness for C1_copy_rollback: three messages, the second copy fails; the
first message was copied, is expunged again, and the destination retains
nothing from the command. -/
theorem C1_copy_rollback_witness :
    ((copy_loop
        ⟨fun m => decide (m ≠ "m2".data), fun _ => some 9⟩
        [⟨1, "m1".data, true⟩, ⟨2, "m2".data, true⟩, ⟨3, "m3".data, true⟩]
        0 5).b_copied = false) ∧
    (imap_cmd_parser_copy
        ⟨fun m => decide (m ≠ "m2".data), fun _ => some 9⟩
        [⟨1, "m1".data, true⟩, ⟨2, "m2".data, true⟩, ⟨3, "m3".data, true⟩]
        5 []).reply = CopyReply.noCopyFailed ∧
    (∀ m ∈ (copy_loop
        ⟨fun m => decide (m ≠ "m2".data), fun _ => some 9⟩
        [⟨1, "m1".data, true⟩, ⟨2, "m2".data, true⟩, ⟨3, "m3".data, true⟩]
        0 5).copied,
      m ∉ (imap_cmd_parser_copy
        ⟨fun m => decide (m ≠ "m2".data), fun _ => some 9⟩
        [⟨1, "m1".data, true⟩, ⟨2, "m2".data, true⟩, ⟨3, "m3".data, true⟩]
        5 []).destAfter) := by
  have h := C1_copy_rollback
    ⟨fun m => decide (m ≠ "m2".data), fun _ => some 9⟩
    [⟨1, "m1".data, true⟩, ⟨2, "m2".data, true⟩, ⟨3, "m3".data, true⟩]
    5 [] (by decide)
  have hfail : (copy_loop
      ⟨fun m => decide (m ≠ "m2".data), fun _ => some 9⟩
      [⟨1, "m1".data, true⟩, ⟨2, "m2".data, true⟩, ⟨3, "m3".data, true⟩]
      0 5).b_copied = false := by decide
  exact ⟨hfail, (h.1 hfail).1, (h.1 hfail).2.2⟩

theorem copy_loop_uv_zero (o : CopyOracle) :
    ∀ (items : List CopyItem) (i : Nat), (copy_loop o items i 0).uidvalidity = 0 := by
  intro items
  induction items with
  | nil => intro i; rfl
  | cons it rest ih =>
    intro i
    unfold copy_loop
    by_cases hv : ¬ it.inView = true
    · rw [if_pos hv]; exact ih (i + 1)
    · rw [if_neg hv]
      by_cases hc : ¬ o.copy_ok it.mid = true
      · rw [if_pos hc]
      · rw [if_neg hc]
        simpa using ih (i + 1)

/-- The tagged reply formatted after a successful APPEND. -/
inductive AppendReply where
  | okAppendUid (uidvalidity uid : Nat)
  | okPlain
deriving DecidableEq

/-- From the source: the APPENDUID polling loop shared by
imap_cmd_parser_append and append_end2 - up to ten attempts; the poll
argument models one summary_folder-plus-get_uid round (some when both MIDB
calls succeed, carrying the reported uidvalidity and uid).  The first
successful attempt formats the trailer with whatever uidvalidity was
reported - there is no zero check. -/
def append_poll_loop (poll : Nat → Option (Nat × Nat)) : Nat → Nat → AppendReply
  | _, 0 => AppendReply.okPlain
  | i, fuel + 1 =>
    match poll i with
    | some r => AppendReply.okAppendUid r.1 r.2
    | none => append_poll_loop poll (i + 1) fuel

/-- The ten-round APPENDUID poll of the source. -/
def imap_cmd_parser_append_uid_trailer (poll : Nat → Option (Nat × Nat)) : AppendReply :=
  append_poll_loop poll 0 10

/-- Claim C9, counterexample: when MIDB answers the very first poll with a
uidvalidity of 0 (and uid 5), APPEND formats the trailer as APPENDUID 0 5
instead of omitting it. -/
theorem C9_counterexample :
    imap_cmd_parser_append_uid_trailer (fun _ => some (0, 5))
      = AppendReply.okAppendUid 0 5 ∧
    AppendReply.okAppendUid 0 5 ≠ AppendReply.okPlain := by
  exact ⟨rfl, by decide⟩

theorem append_poll_loop_none (poll : Nat → Option (Nat × Nat)) :
    ∀ (fuel i : Nat), (∀ j, j < fuel → poll (i + j) = none) →
      append_poll_loop poll i fuel = AppendReply.okPlain := by
  intro fuel
  induction fuel with
  | zero => intro i _; rfl
  | succ n ih =>
    intro i h
    unfold append_poll_loop
    rw [show poll i = none from by simpa using h 0 (Nat.succ_pos n)]
    exact ih (i + 1) (fun j hj => by
      rw [show i + 1 + j = i + (j + 1) from by omega]
      exact h (j + 1) (by omega))

/-- Claim C9, amended: for COPY and UID COPY a COPYUID trailer always carries
a nonzero uidvalidity, and when MIDB reports uidvalidity 0 a successful copy
replies plain OK without the trailer; for APPEND the trailer is omitted only
when all ten polls fail, and a first successful poll produces an APPENDUID
trailer with exactly the uidvalidity MIDB reported - zero included. -/
theorem C9_uid_trailer (o : CopyOracle) (items : List CopyItem)
    (dest0 : List (List Char)) (poll : Nat → Option (Nat × Nat)) (v u0 v0 : Nat)
    (pr : List (Nat × Nat)) :
    ((imap_cmd_parser_copy o items v dest0).reply = CopyReply.okCopyUid v0 pr →
      v0 ≠ 0) ∧
    ((copy_loop o items 0 0).b_copied = true →
      (imap_cmd_parser_copy o items 0 dest0).reply = CopyReply.okPlain) ∧
    ((∀ j, j < 10 → poll j = none) →
      imap_cmd_parser_append_uid_trailer poll = AppendReply.okPlain) ∧
    (poll 0 = some (v0, u0) →
      imap_cmd_parser_append_uid_trailer poll = AppendReply.okAppendUid v0 u0) := by
  refine ⟨?_, ?_, ?_, ?_⟩
  · intro hrep
    unfold imap_cmd_parser_copy at hrep
    by_cases hb : (copy_loop o items 0 v).b_copied = true
    · rw [if_pos (by simp [hb])] at hrep
      by_cases hv : (copy_loop o items 0 v).uidvalidity ≠ 0
      · rw [if_pos hv] at hrep
        simp only [CopyOutcome.mk.injEq] at hrep
        have := (CopyReply.okCopyUid.injEq _ _ _ _).mp hrep.symm
        omega
      · rw [if_neg hv] at hrep
        simp at hrep
    · rw [if_neg (by simpa using hb)] at hrep
      simp at hrep
  · intro hb
    unfold imap_cmd_parser_copy
    rw [if_pos (by simp [hb])]
    rw [if_neg (by simpa using copy_loop_uv_zero o items 0)]
  · intro h
    exact append_poll_loop_none poll 10 0 (fun j hj => by simpa using h j hj)
  · intro h
    unfold imap_cmd_parser_append_uid_trailer append_poll_loop
    rw [h]

/-- Witness for C9_uid_trailer: a successful one-message copy against a
folder whose uidvalidity is 0 replies plain OK, and an APPEND whose polls
all fail omits the trailer. -/
theorem C9_uid_trailer_witness :
    (imap_cmd_parser_copy ⟨fun _ => true, fun _ => some 4⟩
      [⟨1, "m1".data, true⟩] 0 []).reply = CopyReply.okPlain ∧
    imap_cmd_parser_append_uid_trailer (fun _ => none) = AppendReply.okPlain := by
  have h := C9_uid_trailer ⟨fun _ => true, fun _ => some 4⟩
    [⟨1, "m1".data, true⟩] [] (fun _ => none) 0 0 0 []
  exact ⟨h.2.1 (by decide), h.2.2.1 (fun j hj => rfl)⟩

/-- Outcomes of the fallible steps of imap_cmd_parser_append_end2, in source
order: fstat on the scratch fd, read-back of the scratch file, the MIME
parse, the open of maildir/eml/(mid), the body write (imail.to_fd), the
final close_wr, and the MIDB insert_mail call. -/
structure AppendEndOracle where
  fstat_ok : Bool
  read_ok : Bool
  parse_ok : Bool
  emlopen_ok : Bool
  writebody_ok : Bool
  closewr_ok : Bool
  insert_ok : Bool
deriving DecidableEq

/-- Presence of the two files that APPEND finalisation touches. -/
structure AppendFiles where
  tmpExists : Bool
  emlExists : Bool
deriving DecidableEq

/-- How imap_cmd_parser_append_end2 returns. -/
inductive AppendEndResult where
  | errShort
  | errMidb
  | ok
deriving DecidableEq

/-- From the source: imap_cmd_parser_append_end2 reduced to its effect on
maildir/tmp/(mid) and maildir/eml/(mid).  The scratch file exists at entry
and the EML file does not.  The fstat and read failures run
close_and_unlink; the parse failure runs unlink_file; the open and body
write failures run unlink_file and remove the EML path; the close_wr
failure path returns 1909 without any cleanup; after insert_mail only
unlink_file runs, whether or not the insert succeeded. -/
def imap_cmd_parser_append_end2 (o : AppendEndOracle) : AppendFiles × AppendEndResult :=
  if ¬ o.fstat_ok then (⟨false, false⟩, AppendEndResult.errShort)
  else if ¬ o.read_ok then (⟨false, false⟩, AppendEndResult.errShort)
  else if ¬ o.parse_ok then (⟨false, false⟩, AppendEndResult.errShort)
  else if ¬ o.emlopen_ok then (⟨false, false⟩, AppendEndResult.errShort)
  else if ¬ o.writebody_ok then (⟨false, false⟩, AppendEndResult.errShort)
  else if ¬ o.closewr_ok then (⟨true, true⟩, AppendEndResult.errShort)
  else if ¬ o.insert_ok then (⟨false, true⟩, AppendEndResult.errMidb)
  else (⟨false, true⟩, AppendEndResult.ok)

/-- Claim C2, code evaluation at the failing inputs: when the MIDB insert
fails only the scratch file is unlinked and maildir/eml/(mid) remains on
disk, and when the final close of the EML file fails neither file is
removed; the read-back and parse failure paths do clean up both files as
the claim states. -/
theorem C2_append_cleanup :
    (imap_cmd_parser_append_end2 ⟨true, true, true, true, true, true, false⟩
      = (⟨false, true⟩, AppendEndResult.errMidb)) ∧
    (imap_cmd_parser_append_end2 ⟨true, true, true, true, true, false, true⟩
      = (⟨true, true⟩, AppendEndResult.errShort)) ∧
    (imap_cmd_parser_append_end2 ⟨true, false, true, true, true, true, true⟩
      = (⟨false, false⟩, AppendEndResult.errShort)) ∧
    (imap_cmd_parser_append_end2 ⟨true, true, false, true, true, true, true⟩
      = (⟨false, false⟩, AppendEndResult.errShort)) ∧
    (imap_cmd_parser_append_end2 ⟨true, true, true, true, false, true, true⟩
      = (⟨false, false⟩, AppendEndResult.errShort)) := by
  decide

/-- The digest geometry of one MIME part as read by pstruct_null. -/
structure MJSON_MIME_geom where
  entire_length : Nat
  head_offset : Nat
  content_length : Nat
  content_offset : Nat
deriving DecidableEq

/-- Rendered value of one BODY[...](octet-range) item: NIL, or a file-region
marker with an absolute offset and a byte count. -/
inductive BodyRender where
  | nil
  | fileLiteral (offset length : Nat)
deriving DecidableEq

/-- From the source: pstruct_null - pick the entire/content region depending
on whether the part id is empty, default an absent octet length (-1) to the
part length, emit NIL when the offset reaches the part length, otherwise
truncate the length to the remainder and emit the file region. -/
def pstruct_null (pmime : Option MJSON_MIME_geom) (temp_id : List Char)
    (offset : Nat) (length : Option Nat) : BodyRender :=
  match pmime with
  | none => BodyRender.nil
  | some m =>
    let part_length := if temp_id.isEmpty then m.entire_length else m.content_length
    let temp_len := if temp_id.isEmpty then m.head_offset else m.content_offset
    let len0 := match length with | none => part_length | some l => l
    if part_length ≤ offset then BodyRender.nil
    else
      BodyRender.fileLiteral (temp_len + offset)
        (if part_length < offset + len0 then part_length - offset else len0)

/-- Claim C8: for a part of length L, an offset at or beyond L renders NIL;
an in-range offset with an overlong length renders a literal of exactly
L - offset octets at the right file position; an absent length defaults to
the full part length. -/
theorem C8_body_slice (m : MJSON_MIME_geom) (tid : List Char) (o len : Nat) :
    ((if tid.isEmpty then m.entire_length else m.content_length) ≤ o →
      pstruct_null (some m) tid o (some len) = BodyRender.nil) ∧
    (o < (if tid.isEmpty then m.entire_length else m.content_length) →
      (if tid.isEmpty then m.entire_length else m.content_length) < o + len →
      pstruct_null (some m) tid o (some len)
        = BodyRender.fileLiteral
            ((if tid.isEmpty then m.head_offset else m.content_offset) + o)
            ((if tid.isEmpty then m.entire_length else m.content_length) - o)) ∧
    (pstruct_null (some m) tid o none
      = pstruct_null (some m) tid o
          (some (if tid.isEmpty then m.entire_length else m.content_length))) := by
  unfold pstruct_null
  by_cases hid : tid.isEmpty
  · simp only [hid, if_true]
    refine ⟨fun h => by rw [if_pos h], fun h1 h2 => ?_, by trivial⟩
    rw [if_neg (by omega), if_pos h2]
  · simp only [hid, if_false]
    refine ⟨fun h => by rw [if_pos h], fun h1 h2 => ?_, by trivial⟩
    rw [if_neg (by omega), if_pos h2]

/-- Witness for C8_body_slice: a top-level part of length 10 with head offset
2, sliced at offset 3 with requested length 20, renders a literal of 7
octets at file offset 5; offset 12 renders NIL. -/
theorem C8_body_slice_witness :
    pstruct_null (some ⟨10, 2, 8, 4⟩) [] 3 (some 20) = BodyRender.fileLiteral 5 7 ∧
    pstruct_null (some ⟨10, 2, 8, 4⟩) [] 12 (some 1) = BodyRender.nil ∧
    pstruct_null (some ⟨10, 2, 8, 4⟩) [] 0 none = pstruct_null (some ⟨10, 2, 8, 4⟩) [] 0 (some 10) := by
  have h1 := C8_body_slice ⟨10, 2, 8, 4⟩ [] 3 20
  have h2 := C8_body_slice ⟨10, 2, 8, 4⟩ [] 12 1
  have h3 := C8_body_slice ⟨10, 2, 8, 4⟩ [] 0 10
  exact ⟨h1.2.1 (by decide) (by decide), h2.1 (by decide), h3.2.2⟩

/-- Modelled from the spec (imap.hpp is not under src/): the low value-mask
bits of a packed dispatch code hold the reply-code number. -/
def DISPATCH_VALMASK : Nat := 0x3FFF

/-- Modelled from the spec: the bit requesting the MIDB error-string lookup. -/
def DISPATCH_MIDB : Nat := 0x4000

/-- Modelled from the spec: the bit selecting the saved tag_string. -/
def DISPATCH_TAG : Nat := 0x8000

/-- Modelled from the spec: action bit - break out of the read loop. -/
def DISPATCH_BREAK : Nat := 0x10000

/-- Modelled from the spec: action bit - close the connection. -/
def DISPATCH_SHOULD_CLOSE : Nat := 0x20000

/-- Modelled from the spec: the mask covering the action bits. -/
def DISPATCH_ACTMASK : Nat := 0x30000

/-- Modelled from the spec: continue reading - the zero action. -/
def DISPATCH_CONTINUE : Nat := 0

/-- Modelled from the spec: the MIDB error code meaning the insert target
folder was not found, which triggers the TRYCREATE decoration. -/
def MIDB_E_NO_FOLDER : Nat := 2002

/-- One reply line as composed by dval: the tag used, whether the TRYCREATE
decoration is prefixed, the reply-code looked up, and whether the MIDB error
string is appended. -/
structure DvalReply where
  tag : List Char
  trycreate : Bool
  code : Nat
  withMidbErrStr : Bool
deriving DecidableEq

/-- From the source: imap_cmd_parser_dval - unpack the packed code; when the
reply-code field is zero, return the action bits without writing anything;
otherwise compose one reply line (tag from tag_string under DISPATCH_TAG,
else argv[0], or a star when argc is zero; TRYCREATE on MIDB_E_NO_FOLDER;
code replaced by 1907 with the error string appended under DISPATCH_MIDB)
and return the action bits. -/
def imap_cmd_parser_dval (argc : Nat) (argv0 tag_string : List Char) (ret : Nat) :
    Option DvalReply × Nat :=
  if ret &&& DISPATCH_VALMASK = 0 then (none, ret &&& DISPATCH_ACTMASK)
  else
    (some
      { tag := if ret &&& DISPATCH_TAG ≠ 0 then tag_string
               else if argc = 0 then "*".data else argv0,
        trycreate := decide (ret &&& DISPATCH_VALMASK = MIDB_E_NO_FOLDER),
        code := if ret &&& DISPATCH_MIDB ≠ 0 then 1907 else ret &&& DISPATCH_VALMASK,
        withMidbErrStr := decide (ret &&& DISPATCH_MIDB ≠ 0) },
     ret &&& DISPATCH_ACTMASK)

/-- Claim C10: dval writes a reply line exactly when the reply-code field of
the packed code is nonzero, always returns exactly the action-mask bits, and
the bare action codes CONTINUE, BREAK and SHOULD_CLOSE produce no line and
return themselves. -/
theorem C10_dval (argc : Nat) (argv0 tag_string : List Char) (ret : Nat) :
    ((imap_cmd_parser_dval argc argv0 tag_string ret).1.isSome
      ↔ ret &&& DISPATCH_VALMASK ≠ 0) ∧
    (imap_cmd_parser_dval argc argv0 tag_string ret).2 = ret &&& DISPATCH_ACTMASK ∧
    imap_cmd_parser_dval argc argv0 tag_string DISPATCH_CONTINUE
      = (none, DISPATCH_CONTINUE) ∧
    imap_cmd_parser_dval argc argv0 tag_string DISPATCH_BREAK
      = (none, DISPATCH_BREAK) ∧
    imap_cmd_parser_dval argc argv0 tag_string DISPATCH_SHOULD_CLOSE
      = (none, DISPATCH_SHOULD_CLOSE) := by
  refine ⟨?_, ?_, ?_, ?_, ?_⟩
  · unfold imap_cmd_parser_dval
    by_cases h : ret &&& DISPATCH_VALMASK = 0
    · rw [if_pos h]
      simp [h]
    · rw [if_neg h]
      simp [h]
  · unfold imap_cmd_parser_dval
    by_cases h : ret &&& DISPATCH_VALMASK = 0
    · rw [if_pos h]
    · rw [if_neg h]
  · unfold imap_cmd_parser_dval
    rw [if_pos (by decide)]
    rfl
  · unfold imap_cmd_parser_dval
    rw [if_pos (by decide)]
    rfl
  · unfold imap_cmd_parser_dval
    rw [if_pos (by decide)]
    rfl
